import Mathlib

set_option maxHeartbeats 1000000

/- A shallow embedding of the Lumix engine reflection system
   (src/engine/reflection.h): the Variant tagged union, type descriptors,
   type-erased functions and events, the property model, the component
   registry, the generic property traversal and the registration builder.
   Machine scalars are carried as Lean Nat/Int; float and vector payloads
   are carried as raw bit patterns (Nat), since the reflection layer only
   stores and moves them, never computes with them. -/

/-! ## Variant (reflection.h lines 274-322) -/

/-- Payload of a Vec2: two 32-bit float bit patterns. -/
structure Vec2V where
  x : Nat
  y : Nat
  deriving DecidableEq, Repr

/-- Payload of a Vec3: three 32-bit float bit patterns. -/
structure Vec3V where
  x : Nat
  y : Nat
  z : Nat
  deriving DecidableEq, Repr

/-- Payload of a Vec4: four 32-bit float bit patterns. -/
structure Vec4V where
  x : Nat
  y : Nat
  z : Nat
  w : Nat
  deriving DecidableEq, Repr

/-- Payload of a DVec3: three 64-bit double bit patterns. -/
structure DVec3V where
  x : Nat
  y : Nat
  z : Nat
  deriving DecidableEq, Repr

/-- Payload of a Quat: four 32-bit float bit patterns. -/
structure QuatV where
  x : Nat
  y : Nat
  z : Nat
  w : Nat
  deriving DecidableEq, Repr

/-- `Variant::Type`: the tag enumeration of the tagged union. -/
inductive VType where
  | VOID | PTR | BOOL | I32 | U32 | FLOAT | CSTR | ENTITY
  | VEC2 | VEC3 | VEC4 | DVEC3 | COLOR | QUAT
  deriving DecidableEq, Repr

/-- The union of `Variant`: one constructor per union member, named as in
the source (`b`, `i`, `u`, `f`, `s`, `e`, `v2`, `v3`, `v4`, `dv3`, `ptr`,
`color`, `quat`). The active constructor models the member last written.
`s` and `ptr` carry the pointer value as a Nat address. -/
inductive VData where
  | b (v : Bool)
  | i (v : Int)
  | u (v : Nat)
  | f (v : Nat)
  | s (v : Nat)
  | e (v : Int)
  | v2 (v : Vec2V)
  | v3 (v : Vec3V)
  | v4 (v : Vec4V)
  | dv3 (v : DVec3V)
  | ptr (v : Nat)
  | color (v : Nat)
  | quat (v : QuatV)
  deriving DecidableEq, Repr

/-- `Variant`: a tag plus the union storage. -/
structure Variant where
  type : VType
  data : VData
  deriving DecidableEq, Repr

/-- The `Variant()` constructor: `type = I32; i = 0;`. -/
def Variant.mkDefault : Variant := { type := .I32, data := .i 0 }

/-- One value acceptable to one of Variant's fourteen assignment
operators: bool, i32, u32, float, Path (stores `v.c_str()`, a pointer),
const char pointer, EntityPtr, Vec2, Vec3, Vec4, DVec3, void pointer,
Color and Quat. -/
inductive AssignVal where
  | aBool (v : Bool)
  | aI32 (v : Int)
  | aU32 (v : Nat)
  | aFloat (v : Nat)
  | aPath (cstr : Nat)
  | aCStr (v : Nat)
  | aEntity (v : Int)
  | aVec2 (v : Vec2V)
  | aVec3 (v : Vec3V)
  | aVec4 (v : Vec4V)
  | aDVec3 (v : DVec3V)
  | aPtr (v : Nat)
  | aColor (v : Nat)
  | aQuat (v : QuatV)
  deriving DecidableEq, Repr

/-- The assignment operators of `Variant` (lines 308-321): each writes its
union member and then sets the tag. Writing a union member replaces the
union storage wholesale, so the previous variant contents are dropped. -/
def Variant.assign (_old : Variant) : AssignVal → Variant
  | .aBool v => { data := .b v, type := .BOOL }
  | .aI32 v => { data := .i v, type := .I32 }
  | .aU32 v => { data := .u v, type := .U32 }
  | .aFloat v => { data := .f v, type := .FLOAT }
  | .aPath v => { data := .s v, type := .CSTR }
  | .aCStr v => { data := .s v, type := .CSTR }
  | .aEntity v => { data := .e v, type := .ENTITY }
  | .aVec2 v => { data := .v2 v, type := .VEC2 }
  | .aVec3 v => { data := .v3 v, type := .VEC3 }
  | .aVec4 v => { data := .v4 v, type := .VEC4 }
  | .aDVec3 v => { data := .dv3 v, type := .DVEC3 }
  | .aPtr v => { data := .ptr v, type := .PTR }
  | .aColor v => { data := .color v, type := .COLOR }
  | .aQuat v => { data := .quat v, type := .QUAT }

/-- The tag the assigned value's type corresponds to: BOOL for bool, I32
for i32, U32 for u32, FLOAT for float, CSTR for Path and for const char
pointers, ENTITY for EntityPtr, PTR for void pointers, and the vector,
color and quaternion tags for their types. -/
def assignTag : AssignVal → VType
  | .aBool _ => .BOOL
  | .aI32 _ => .I32
  | .aU32 _ => .U32
  | .aFloat _ => .FLOAT
  | .aPath _ => .CSTR
  | .aCStr _ => .CSTR
  | .aEntity _ => .ENTITY
  | .aVec2 _ => .VEC2
  | .aVec3 _ => .VEC3
  | .aVec4 _ => .VEC4
  | .aDVec3 _ => .DVEC3
  | .aPtr _ => .PTR
  | .aColor _ => .COLOR
  | .aQuat _ => .QUAT

/-- The union member named by the assigned value's tag, holding the
assigned value bit-for-bit (for Path, the `c_str()` pointer is the
assigned value). -/
def assignData : AssignVal → VData
  | .aBool v => .b v
  | .aI32 v => .i v
  | .aU32 v => .u v
  | .aFloat v => .f v
  | .aPath v => .s v
  | .aCStr v => .s v
  | .aEntity v => .e v
  | .aVec2 v => .v2 v
  | .aVec3 v => .v3 v
  | .aVec4 v => .v4 v
  | .aDVec3 v => .dv3 v
  | .aPtr v => .ptr v
  | .aColor v => .color v
  | .aQuat v => .quat v

/-! ## Attributes (reflection.h lines 28-112, 260-266) -/

/-- `IAttribute::Type`: the attribute kind enumeration. -/
inductive AttrType where
  | MIN | CLAMP | RADIANS | COLOR | RESOURCE | ENUM
  | MULTILINE | STRING_ENUM | NO_UI
  deriving DecidableEq, Repr

/-- An attribute object: each concrete subclass returns a fixed kind from
`getType()`; `payload` stands for the subclass data (e.g. the float bits
of `MinAttribute::min`), distinguishing attribute instances. -/
structure IAttr where
  ty : AttrType
  payload : Nat
  deriving DecidableEq, Repr

/-- `IAttribute::getType()`. -/
def IAttr.getType (a : IAttr) : AttrType := a.ty

/-- The loop of `getAttribute` (lines 260-266): scan the attribute list in
order and return the first attribute whose `getType()` equals the
requested kind, null when the scan falls through. -/
def findAttr : List IAttr → AttrType → Option IAttr
  | [], _ => none
  | a :: rest, t => if a.getType = t then some a else findAttr rest t

theorem findAttr_eq_some_iff (l : List IAttr) (t : AttrType) (a : IAttr) :
    findAttr l t = some a ↔
      ∃ l₁ l₂, l = l₁ ++ a :: l₂ ∧ a.getType = t ∧ ∀ b ∈ l₁, b.getType ≠ t := by
  induction l with
  | nil =>
    simp [findAttr]
  | cons c rest ih =>
    by_cases hc : c.getType = t
    · simp only [findAttr, hc, if_pos rfl]
      constructor
      · rintro h
        injection h with h
        exact ⟨[], rest, by simp [← h, hc]⟩
      · rintro ⟨l₁, l₂, hdecomp, hat, hnone⟩
        match l₁, hdecomp with
        | [], h => injection h with h1 _; simp [h1]
        | x :: l₁, h =>
          injection h with h1 h2
          exact absurd (h1 ▸ hc) (hnone x (by simp))
    · simp only [findAttr, if_neg hc]
      rw [ih]
      constructor
      · rintro ⟨l₁, l₂, hdecomp, hat, hnone⟩
        refine ⟨c :: l₁, l₂, by simp [hdecomp], hat, ?_⟩
        intro b hb
        rcases List.mem_cons.mp hb with h | h
        · exact h ▸ hc
        · exact hnone b h
      · rintro ⟨l₁, l₂, hdecomp, hat, hnone⟩
        match l₁, hdecomp with
        | [], h => injection h with h1 _; exact absurd (h1 ▸ hat) hc
        | x :: l₁, h =>
          injection h with h1 h2
          exact ⟨l₁, l₂, h2, hat, fun b hb => hnone b (by simp [hb])⟩

theorem findAttr_eq_none_iff (l : List IAttr) (t : AttrType) :
    findAttr l t = none ↔ ∀ a ∈ l, a.getType ≠ t := by
  induction l with
  | nil => simp [findAttr]
  | cons c rest ih =>
    by_cases hc : c.getType = t
    · simp [findAttr, hc]
    · simp [findAttr, hc, ih]

/-! ## TypeDescriptor and the type-erased call layer
    (reflection.h lines 324-368, 370-398, 422-444, 446-520) -/

/-- `TypeDescriptor` (lines 324-331): static metadata derived from a bound
type — the Variant tag in the field named `type`, the normalized type
name, const/reference/pointer flags and the byte size. -/
structure TypeDescriptor where
  type : VType
  type_name : String
  is_const : Bool
  is_reference : Bool
  is_pointer : Bool
  size : Nat
  deriving DecidableEq, Repr

/-- The descriptor built from `Variant::Type::VOID` by the implicit
conversion in the `expand` arrays of `ArgToTypeDescriptor::get` and
`Event::getArgType`: only the tag is set. -/
def voidSentinelTD : TypeDescriptor :=
  { type := .VOID, type_name := "", is_const := false, is_reference := false,
    is_pointer := false, size := 0 }

/-- `ArgToTypeDescriptor<F>::get(i)` / `Event::getArgType(i)`: index into
the per-argument descriptor array extended with a trailing VOID sentinel
(lines 422-444 and 530-537). -/
def getArgTypeAt (args : List TypeDescriptor) (i : Nat) : TypeDescriptor :=
  (args ++ [voidSentinelTD]).getD i voidSentinelTD

/-- The `FunctionBase` interface (lines 370-383) as seen by `Event::bind`:
the argument descriptors behind `getArgCount`/`getArgType`, and the raw
thunk `getDelegateStub()` returns, identified by a Nat address. -/
structure FnBase where
  argDescs : List TypeDescriptor
  stubAddr : Nat
  deriving DecidableEq, Repr

/-- `FunctionBase::getArgCount()`. -/
def FnBase.getArgCount (f : FnBase) : Nat := f.argDescs.length

/-- `FunctionBase::getArgType(i)`. -/
def FnBase.getArgType (f : FnBase) (i : Nat) : TypeDescriptor :=
  getArgTypeAt f.argDescs i

/-- The delegate list of the module member the event wraps: the bindings
accumulated by `bindRaw`, each an (object, raw function) pair of
addresses. -/
structure DelegateListState where
  bindings : List (Nat × Nat)
  deriving DecidableEq, Repr

/-- `DelegateList::bindRaw(obj, fn)`: append one binding. -/
def DelegateListState.bindRaw (dl : DelegateListState) (obj fn : Nat) :
    DelegateListState :=
  { bindings := dl.bindings ++ [(obj, fn)] }

/-- `Event<DelegateList<void(Args...)>& (C::*)()>` (lines 522-571): the
event's own argument descriptors, derived from `Args...`. -/
structure EventModel where
  argDescs : List TypeDescriptor
  deriving DecidableEq, Repr

/-- `Event::getArgCount()` = `sizeof...(Args)`. -/
def EventModel.getArgCount (ev : EventModel) : Nat := ev.argDescs.length

/-- `Event::bind(object, fn_object, fn)` (lines 546-558): fail when the
function's argument count differs from `ArgsCount<void (C::*)(Args...)>`
(= the event's count); then fail when some argument's descriptor `type`
tag differs from the event's at that index; otherwise `bindRaw` the
function's delegate stub on the delegate list and return true. The state
threaded here is the delegate list the member `(s->*function)()`
returns. -/
def EventModel.bind (ev : EventModel) (dl : DelegateListState)
    (fnObject : Nat) (fn : FnBase) : Bool × DelegateListState :=
  if fn.getArgCount ≠ ev.getArgCount then (false, dl)
  else if (List.range fn.getArgCount).any
      (fun i => (fn.getArgType i).type ≠ (getArgTypeAt ev.argDescs i).type) then
    (false, dl)
  else (true, dl.bindRaw fnObject fn.stubAddr)

/-- A bound method as `Function<F>::invoke` sees it when the return type R
is not void: `retSize` is `sizeof(R)` and `run` is the composite of the
`fromVariant` unpacking with the member call, yielding the `sizeof(R)`
bytes of the returned value. -/
structure BoundMethod where
  retSize : Nat
  run : List Variant → List Nat
  run_size : ∀ a, (run a).length = retSize

/-- `VariantCaller::call` for a non-void return type (lines 448-462): call
the method on the unpacked arguments, then `memcpy` the returned value
into `ret_mem` only when `ret_mem.length() == sizeof(v)`. The first
component records the calls made to the method (exactly one, with the
given arguments); the second is the final contents of `ret_mem`. The
function is total and returns no error indication (`invoke` is void). -/
def variantCallerCall (m : BoundMethod) (ret_mem : List Nat)
    (args : List Variant) : List (List Variant) × List Nat :=
  let v := m.run args
  ([args], if ret_mem.length = v.length then v else ret_mem)

/-- `Function<F>::invoke(obj, ret_mem, args)` (lines 512-515): build the
argument indices and delegate to `VariantCaller::call`. -/
def functionInvoke (m : BoundMethod) (ret_mem : List Nat)
    (args : List Variant) : List (List Variant) × List Nat :=
  variantCallerCall m ret_mem args

/-! ## The property model and the component registry
    (reflection.h lines 115-222, 619-667, 869-897) -/

/-- The scalar value types `IPropertyVisitor` has overloads for
(lines 149-164): float, int, u32, EntityPtr, Vec2, Vec3, IVec3, Vec4,
Path, bool and const char pointer. -/
inductive ScalarType where
  | flt | int32 | uns32 | entityPtr | vec2T | vec3T | ivec3T | vec4T
  | pathT | boolT | cstrT
  deriving DecidableEq, Repr

/-- The Lean carrier of each scalar property value type. Floats travel as
bit patterns; Path and const char pointer values as strings; EntityPtr as
its index. -/
def ScalarType.carrier : ScalarType → Type
  | .flt => Nat
  | .int32 => Int
  | .uns32 => Nat
  | .entityPtr => Int
  | .vec2T => Vec2V
  | .vec3T => Vec3V
  | .ivec3T => Int × Int × Int
  | .vec4T => Vec4V
  | .pathT => String
  | .boolT => Bool
  | .cstrT => String

/-- The value-initialized default of each carrier (`T value = {}` in
`getPropertyValue`): zero for numeric types, false, the empty string, and
the invalid entity (index -1) for EntityPtr. -/
def ScalarType.defaultVal : (t : ScalarType) → t.carrier
  | .flt => (0 : Nat)
  | .int32 => (0 : Int)
  | .uns32 => (0 : Nat)
  | .entityPtr => (-1 : Int)
  | .vec2T => (⟨0, 0⟩ : Vec2V)
  | .vec3T => (⟨0, 0, 0⟩ : Vec3V)
  | .ivec3T => ((0, 0, 0) : Int × Int × Int)
  | .vec4T => (⟨0, 0, 0, 0⟩ : Vec4V)
  | .pathT => ""
  | .boolT => false
  | .cstrT => ""

/-- `Property<T>` (lines 126-147) as the builder produces it: a name, the
value type, the getter thunk (the builder always installs one), the
optional setter thunk (null when no setter template argument was
supplied), and the ordered attribute list. Getter and setter take the
owning module's state (an opaque world, modelled as a Nat), the entity
and the array index; the setter returns the new world. -/
structure ScalarProp where
  name : String
  ty : ScalarType
  getter : Nat → Nat → Nat → ty.carrier
  setter : Option (Nat → Nat → Nat → ty.carrier → Nat)
  attributes : List IAttr := []

/-- `getAttribute(prop, type)` (lines 260-266). -/
def getAttribute (p : ScalarProp) (t : AttrType) : Option IAttr :=
  findAttr p.attributes t

/-- `Property<T>::isReadonly()` (line 143): the setter is null. -/
def ScalarProp.isReadonly (p : ScalarProp) : Bool := p.setter.isNone

/-- `Property<T>::set(cmp, idx, val)` (lines 139-141): `setter(cmp.module,
cmp.entity, idx, val)` with no null check — when the setter is null the
call is a null function pointer call, modelled as `none` (undefined
behavior / crash); otherwise `some` of the setter's resulting world. -/
def ScalarProp.set (p : ScalarProp) (world ent idx : Nat)
    (v : p.ty.carrier) : Option Nat :=
  match p.setter with
  | none => none
  | some s => some (s world ent idx v)

/-- A property that can sit inside an `ArrayProperty`'s children: a scalar
property or a blob property. The builder's `begin_array` always pushes
the array itself to the component's top-level list, so arrays never
nest. -/
inductive CLeaf where
  | scalar (p : ScalarProp)
  | blob (name : String)

/-- A top-level property of a component: scalar, blob, or an
`ArrayProperty` with its child schema (lines 190-222). -/
inductive CProp where
  | scalar (p : ScalarProp)
  | blob (name : String)
  | array (name : String) (children : List CLeaf)

/-- View an array child as a property (the child is visited through the
same `IPropertyVisitor` overloads). -/
def CLeaf.toProp : CLeaf → CProp
  | .scalar p => .scalar p
  | .blob n => .blob n

/-- `ComponentBase` (lines 619-633): name, label and the ordered property
list (functions are carried by the builder model below). -/
structure Component where
  name : String
  label : String := ""
  props : List CProp
  functions : List String := []

/-- The global component registry behind `getComponent`: registered
components keyed by their `ComponentType` handle (a Nat). -/
def Registry := List (Nat × Component)

/-- Modelled from the spec: `getComponent(cmp_type)` is implemented in
reflection.cpp, which is not part of this excerpt. Per spec section 4.5
it resolves the handle by a registry scan and a lookup miss "returns a
null/sentinel value". -/
def getComponent (reg : Registry) (t : Nat) : Option Component :=
  match reg with
  | [] => none
  | (k, c) :: rest => if k = t then some c else getComponent rest t

/-! ## forEachProperty (reflection.h lines 869-897).
    `ComponentBase::visit` and `ArrayProperty::visitChildren` are
    implemented in reflection.cpp, which is not part of this excerpt;
    modelled from the spec: the component visitor visits every owned
    property in order, and `visitChildren` visits the array's children in
    order (spec sections 3 and 4.2). -/

/-- One callback invocation of `forEachProperty`'s helper: the visited
property and the `parent` argument passed with it (the enclosing
`ArrayProperty`, identified by its name and children, or null). -/
def Invocation := CProp × Option (String × List CLeaf)

/-- One step of the `Helper` visitor (lines 883-888): visiting an
`ArrayProperty` first reports the array itself under the current parent,
then sets `parent` to the array, visits the children, and resets `parent`
to null; visiting any other property reports it under the current parent,
leaving `parent` as it is. Returns the emitted invocations and the
`parent` field after the step. -/
def helperStep (parent : Option (String × List CLeaf)) :
    CProp → List Invocation × Option (String × List CLeaf)
  | .array n cs =>
    ((CProp.array n cs, parent) :: cs.map (fun c => (c.toProp, some (n, cs))),
     none)
  | p => ([(p, parent)], parent)

/-- `ComponentBase::visit` driving the `Helper`: fold the mutable `parent`
state over the component's properties in order. -/
def componentInvocations (parent : Option (String × List CLeaf)) :
    List CProp → List Invocation
  | [] => []
  | p :: rest =>
    let step := helperStep parent p
    step.1 ++ componentInvocations step.2 rest

/-- `forEachProperty(cmp_type, f)` (lines 869-897): look the component up,
do nothing on a miss (`if (cmp)`), otherwise visit every property with
the helper. The result lists the invocations of `f` in order. -/
def forEachProperty (reg : Registry) (t : Nat) : List Invocation :=
  match getComponent reg t with
  | none => []
  | some c => componentInvocations none c.props

/-- The invocations the spec describes for one top-level property: the
property itself with a null parent, followed, for an array, by its
children each with the array as parent. -/
def expectedInvocations : CProp → List Invocation
  | .array n cs =>
    (CProp.array n cs, none) :: cs.map (fun c => (c.toProp, some (n, cs)))
  | p => [(p, none)]

/-- The number of child properties a top-level property contributes. -/
def childCount : CProp → Nat
  | .array _ cs => cs.length
  | _ => 0

/-! ## getPropertyValue (reflection.h lines 635-657) -/

/-- One visit of the anonymous `IEmptyPropertyVisitor` inside
`getPropertyValue<T>`: only the `Property<T>` overload is overridden, so
only scalar properties whose value type is `T` are considered; when the
name matches `prop_name` the visitor records `found = true` and
overwrites `value` with `prop.get(cmp, -1)` (index `(u32)-1` =
4294967295); every other property leaves the accumulator alone. -/
def gpvStep (T : ScalarType) (pname : String) (world ent : Nat)
    (acc : Bool × T.carrier) : CProp → Bool × T.carrier
  | .scalar p =>
    if h : p.ty = T then
      if p.name = pname then (true, h ▸ (p.getter world ent 4294967295))
      else acc
    else acc
  | _ => acc

/-- `getPropertyValue<T>(module, e, cmp_type, prop_name, out)`: run the
visitor over the component's properties starting from `found = false`,
`value = {}`; the result is `(found, out)`. A registry miss makes
`cmp_desc` null and the unchecked `cmp_desc->visit` call undefined,
modelled as `none`. -/
def getPropertyValue (reg : Registry) (t : Nat) (world ent : Nat)
    (T : ScalarType) (pname : String) : Option (Bool × T.carrier) :=
  (getComponent reg t).map
    (fun c => c.props.foldl (gpvStep T pname world ent) (false, T.defaultVal))

/-- The values `getPropertyValue`'s visitor would record, in visit order:
one entry per top-level scalar property of type `T` named `pname`, each
the result of its getter at index 4294967295. -/
def matchValues (T : ScalarType) (pname : String) (world ent : Nat) :
    List CProp → List T.carrier
  | [] => []
  | .scalar p :: rest =>
    if h : p.ty = T then
      if p.name = pname then
        (h ▸ (p.getter world ent 4294967295)) ::
          matchValues T pname world ent rest
      else matchValues T pname world ent rest
    else matchValues T pname world ent rest
  | _ :: rest => matchValues T pname world ent rest

/-! ## The registration builder (reflection.h lines 671-867) -/

/-- `Module` (lines 659-667): module-scope functions and events, and the
owned components, in registration order. Functions and events are
identified by their registered names. -/
structure ModuleR where
  name : String := ""
  functions : List String := []
  events : List String := []
  cmps : List Component := []

/-- `builder`: the fluent registration state. -/
structure Builder where
  module : ModuleR

/-- `build_module(name)`: a builder over a fresh module. -/
def buildModule (name : String) : Builder := { module := { name := name } }

/-- `builder::cmp<Creator, Destroyer>(name, label)` (lines 674-688).
`registerCmp` is implemented in reflection.cpp, which is not part of this
excerpt; modelled from the spec: it "opens a new component", appending it
to the module's component list (so that `cmps.back()` is this component)
and to the global registry. -/
def Builder.cmp (b : Builder) (name label : String) : Builder :=
  { module := { b.module with
      cmps := b.module.cmps ++ [{ name := name, label := label, props := [] }] } }

/-- `module->cmps.back()->functions.push(f)`: append a function name to
the last component's list. -/
def pushFnLast : List Component → String → List Component
  | [], _ => []
  | [c], fname => [{ c with functions := c.functions ++ [fname] }]
  | c :: c2 :: rest, fname => c :: pushFnLast (c2 :: rest) fname

/-- `builder::function<F>(name)` (lines 836-847): module scope when no
component has been registered yet, otherwise the last component's
scope. -/
def Builder.function (b : Builder) (fname : String) : Builder :=
  if b.module.cmps.isEmpty then
    { module := { b.module with functions := b.module.functions ++ [fname] } }
  else
    { module := { b.module with cmps := pushFnLast b.module.cmps fname } }

/-- `builder::event<F>(name)` (lines 827-834): always
`module->events.push(f)`. -/
def Builder.event (b : Builder) (ename : String) : Builder :=
  { module := { b.module with events := b.module.events ++ [ename] } }

/-! ## builder::prop for enum-typed getters (reflection.h lines 693-751) -/

/-- The two `static_cast`s at the enum boundary: `static_cast<i32>(T)` on
the getter result and `static_cast<T>(i32)` on the setter argument. -/
structure EnumCast (E : Type) where
  toI32 : E → Int
  ofI32 : Int → E

/-- The `Property<i32>` thunk pair produced by `builder::prop` for a
module accessor pair over an enum type `E` (the i32 backing type is the
Lean Int): getter and setter over the module state `M`, entity and array
index. -/
structure BuiltEnumProp (M : Type) where
  getter : M → Nat → Nat → Int
  setter : M → Nat → Nat → Int → M

/-- `builder::prop<Getter, Setter>` when `__is_enum(T)` holds for the
getter's result type `T` (lines 696, 702-711, 725-735, one-argument
accessor case): the produced getter calls the module getter and casts the
enum result to i32; the produced setter casts the supplied i32 back to
`T` and calls the module setter. -/
def builderPropEnum {M E : Type} (mget : M → Nat → E) (mset : M → Nat → E → M)
    (c : EnumCast E) : BuiltEnumProp M :=
  { getter := fun m e _idx => c.toI32 (mget m e),
    setter := fun m e _idx v => mset m e (c.ofI32 v) }

/-! ## Claim theorems -/

/-- C4: after any assignment operator on `Variant`, the tag equals the one
corresponding to the assigned value's type (BOOL for bool, I32 for i32,
CSTR for const char pointers and Path, ENTITY for EntityPtr, COLOR for
Color, QUAT for Quat, and so on), and the union member named by that tag
holds the assigned value bit-for-bit, whatever the variant held before. -/
theorem variant_assign_tag_integrity (old : Variant) (a : AssignVal) :
    (old.assign a).type = assignTag a ∧ (old.assign a).data = assignData a := by
  cases a <;> exact ⟨rfl, rfl⟩

/-- C10: `getAttribute(prop, type)` returns the first attribute in the
property's registration-ordered attribute list whose `getType()` equals
the requested kind (everything before it in the list is of another kind),
and returns null exactly when no attribute of that kind is attached. -/
theorem getAttribute_first_of_kind (p : ScalarProp) (t : AttrType) :
    (∀ a, getAttribute p t = some a ↔
      ∃ l₁ l₂, p.attributes = l₁ ++ a :: l₂ ∧ a.getType = t ∧
        ∀ b ∈ l₁, b.getType ≠ t)
    ∧ (getAttribute p t = none ↔ ∀ a ∈ p.attributes, a.getType ≠ t) :=
  ⟨fun a => findAttr_eq_some_iff p.attributes t a,
   findAttr_eq_none_iff p.attributes t⟩

/-- C2: for a bound method with a non-void return type, `invoke` always
calls the method exactly once with the supplied arguments; it copies the
returned value's bytes into `ret_mem` exactly when `ret_mem.length()`
equals `sizeof(R)`, and when the sizes differ it leaves `ret_mem` exactly
as it was. The result carries no error indication in either case
(`invoke` returns void). -/
theorem function_invoke_return_write (m : BoundMethod) (ret_mem : List Nat)
    (args : List Variant) :
    (functionInvoke m ret_mem args).1 = [args]
    ∧ (ret_mem.length = m.retSize →
        (functionInvoke m ret_mem args).2 = m.run args)
    ∧ (ret_mem.length ≠ m.retSize →
        (functionInvoke m ret_mem args).2 = ret_mem) := by
  refine ⟨rfl, fun h => ?_, fun h => ?_⟩ <;>
    simp [functionInvoke, variantCallerCall, m.run_size args, h]

theorem eventBind_eq (ev : EventModel) (dl : DelegateListState) (obj : Nat)
    (fn : FnBase) :
    ev.bind dl obj fn =
      if fn.getArgCount = ev.getArgCount ∧
          ∀ i < fn.getArgCount,
            (fn.getArgType i).type = (getArgTypeAt ev.argDescs i).type then
        (true, dl.bindRaw obj fn.stubAddr)
      else (false, dl) := by
  unfold EventModel.bind
  by_cases hc : fn.getArgCount = ev.getArgCount
  · have hany : ((List.range fn.getArgCount).any
        fun i => (fn.getArgType i).type ≠ (getArgTypeAt ev.argDescs i).type) = true ↔
        ¬ ∀ i < fn.getArgCount,
            (fn.getArgType i).type = (getArgTypeAt ev.argDescs i).type := by
      simp [List.any_eq_true, List.mem_range]
    by_cases hall : ∀ i < fn.getArgCount,
        (fn.getArgType i).type = (getArgTypeAt ev.argDescs i).type
    · rw [if_neg (by simp [hc]), if_neg (fun hx => hany.mp hx hall), if_pos ⟨hc, hall⟩]
    · rw [if_neg (by simp [hc]), if_pos (hany.mpr hall), if_neg (by simp [hall])]
  · rw [if_pos (by simp [hc]), if_neg (by simp [hc])]

/-- C1: `Event::bind(object, fn_object, fn)` returns false and leaves the
delegate list's prior bindings untouched when the function's argument
count differs from the event's, and likewise when the counts match but
some argument's declared descriptor `type` tag differs from the event's
at that position; it appends the binding (via `bindRaw` with the
function's delegate stub) and returns true exactly when the count and
every per-argument type tag match. -/
theorem event_bind_signature_checked (ev : EventModel) (fn : FnBase)
    (dl : DelegateListState) (obj : Nat) :
    ((ev.bind dl obj fn).1 = true ↔
      fn.getArgCount = ev.getArgCount ∧
        ∀ i < fn.getArgCount,
          (fn.getArgType i).type = (getArgTypeAt ev.argDescs i).type)
    ∧ ((ev.bind dl obj fn).1 = false → (ev.bind dl obj fn).2 = dl)
    ∧ ((ev.bind dl obj fn).1 = true →
        (ev.bind dl obj fn).2 = dl.bindRaw obj fn.stubAddr) := by
  rw [eventBind_eq]
  by_cases h : fn.getArgCount = ev.getArgCount ∧
      ∀ i < fn.getArgCount,
        (fn.getArgType i).type = (getArgTypeAt ev.argDescs i).type
  · rw [if_pos h]
    exact ⟨by simpa using h, by simp, by simp⟩
  · rw [if_neg h]
    exact ⟨by simpa using h, by simp, by simp⟩

/-- The whole expected invocation list of a component: the expected
invocations of each top-level property, in order. -/
def joinExpected : List CProp → List Invocation
  | [] => []
  | p :: rest => expectedInvocations p ++ joinExpected rest

theorem componentInvocations_none_eq (props : List CProp) :
    componentInvocations none props = joinExpected props := by
  induction props with
  | nil => rfl
  | cons p rest ih =>
    cases p <;>
      simp [componentInvocations, helperStep, expectedInvocations,
        joinExpected, ih]

theorem joinExpected_length (props : List CProp) :
    (joinExpected props).length = props.length + (props.map childCount).sum := by
  induction props with
  | nil => rfl
  | cons p rest ih =>
    cases p <;>
      simp [joinExpected, expectedInvocations, childCount, ih] <;> omega

/-- C3: on a registered component, `forEachProperty` invokes the callback
once per top-level property and once per child of each array property —
`N + Σ k_i` invocations in all — where the `parent` argument is null for
every top-level invocation (the helper resets it to null after each
array's children) and equals the enclosing array exactly for the child
invocations, as `joinExpected`/`expectedInvocations` spell out. -/
theorem forEachProperty_visits (reg : Registry) (t : Nat) (c : Component)
    (h : getComponent reg t = some c) :
    forEachProperty reg t = joinExpected c.props
    ∧ (forEachProperty reg t).length =
        c.props.length + (c.props.map childCount).sum := by
  have hres : forEachProperty reg t = componentInvocations none c.props := by
    simp only [forEachProperty, h]
  rw [hres, componentInvocations_none_eq]
  exact ⟨rfl, joinExpected_length c.props⟩

/-- A concrete scalar property used by the witnesses. -/
def propF : ScalarProp :=
  { name := "f", ty := .flt, getter := fun _ _ _ => (5 : Nat), setter := none }

/-- A concrete array child used by the witnesses. -/
def propChild1 : ScalarProp :=
  { name := "c1", ty := .int32, getter := fun _ _ _ => (1 : Int), setter := none }

/-- A concrete registered component: one scalar, one array with two
children, one blob. -/
def cmpDemo : Component :=
  { name := "demo",
    props := [.scalar propF,
              .array "items" [.scalar propChild1, .blob "raw"],
              .blob "data"] }

/-- A concrete registry holding `cmpDemo` under handle 7. -/
def regDemo : Registry := [(7, cmpDemo)]

theorem forEachProperty_visits_witness :
    forEachProperty regDemo 7 = joinExpected cmpDemo.props
    ∧ (forEachProperty regDemo 7).length =
        cmpDemo.props.length + (cmpDemo.props.map childCount).sum :=
  forEachProperty_visits regDemo 7 cmpDemo rfl

/-- C8: when `getComponent` misses (unregistered type), `forEachProperty`
invokes the callback zero times and returns normally (the helper is never
run; the miss is non-fatal). -/
theorem forEachProperty_miss_no_invocations (reg : Registry) (t : Nat)
    (h : getComponent reg t = none) : forEachProperty reg t = [] := by
  simp only [forEachProperty, h]

theorem forEachProperty_miss_no_invocations_witness :
    forEachProperty [] 42 = [] :=
  forEachProperty_miss_no_invocations [] 42 rfl

/-- The last element of a list, or the given default when the list is
empty: the value left in the visitor's overwritten accumulator. -/
def lastOrDefault {α : Type} (d : α) : List α → α
  | [] => d
  | x :: xs => lastOrDefault x xs

theorem gpv_foldl_eq (T : ScalarType) (pname : String) (world ent : Nat)
    (props : List CProp) (acc : Bool × T.carrier) :
    props.foldl (gpvStep T pname world ent) acc =
      ((acc.1 || !(matchValues T pname world ent props).isEmpty),
       lastOrDefault acc.2 (matchValues T pname world ent props)) := by
  induction props generalizing acc with
  | nil => simp [matchValues, lastOrDefault]
  | cons p rest ih =>
    cases p with
    | scalar sp =>
      by_cases h1 : sp.ty = T
      · by_cases h2 : sp.name = pname
        · simp [gpvStep, matchValues, h1, h2, ih, lastOrDefault]
        · simp [gpvStep, matchValues, h1, h2, ih]
      · simp [gpvStep, matchValues, h1, ih]
    | blob n => simp [gpvStep, matchValues, ih]
    | array n cs => simp [gpvStep, matchValues, ih]

theorem matchValues_ne_nil_iff (T : ScalarType) (pname : String)
    (world ent : Nat) (props : List CProp) :
    matchValues T pname world ent props ≠ [] ↔
      ∃ sp : ScalarProp,
        CProp.scalar sp ∈ props ∧ sp.ty = T ∧ sp.name = pname := by
  induction props with
  | nil => simp [matchValues]
  | cons p rest ih =>
    cases p with
    | scalar sp =>
      by_cases h1 : sp.ty = T
      · by_cases h2 : sp.name = pname
        · have hex : ∃ sp1 : ScalarProp,
              CProp.scalar sp1 ∈ CProp.scalar sp :: rest ∧
                sp1.ty = T ∧ sp1.name = pname :=
            ⟨sp, List.mem_cons_self _ _, h1, h2⟩
          simp [matchValues, h1, h2, hex]
        · simp only [matchValues, dif_pos h1, if_neg h2, ih]
          constructor
          · rintro ⟨sp1, hm, hrest⟩
            exact ⟨sp1, List.mem_cons_of_mem _ hm, hrest⟩
          · rintro ⟨sp1, hm, h3, h4⟩
            rcases List.mem_cons.mp hm with h | h
            · injection h with he
              exact absurd (he ▸ h4) h2
            · exact ⟨sp1, h, h3, h4⟩
      · simp only [matchValues, dif_neg h1, ih]
        constructor
        · rintro ⟨sp1, hm, hrest⟩
          exact ⟨sp1, List.mem_cons_of_mem _ hm, hrest⟩
        · rintro ⟨sp1, hm, h3, h4⟩
          rcases List.mem_cons.mp hm with h | h
          · injection h with he
            exact absurd (he ▸ h3) h1
          · exact ⟨sp1, h, h3, h4⟩
    | blob n =>
      simp only [matchValues, ih]
      constructor
      · rintro ⟨sp1, hm, hrest⟩
        exact ⟨sp1, List.mem_cons_of_mem _ hm, hrest⟩
      · rintro ⟨sp1, hm, h3, h4⟩
        rcases List.mem_cons.mp hm with h | h
        · cases h
        · exact ⟨sp1, h, h3, h4⟩
    | array n cs =>
      simp only [matchValues, ih]
      constructor
      · rintro ⟨sp1, hm, hrest⟩
        exact ⟨sp1, List.mem_cons_of_mem _ hm, hrest⟩
      · rintro ⟨sp1, hm, h3, h4⟩
        rcases List.mem_cons.mp hm with h | h
        · cases h
        · exact ⟨sp1, h, h3, h4⟩

/-- C9: on a registered component, `getPropertyValue<T>` returns true
exactly when the component's top-level properties contain a `Property<T>`
whose name equals `prop_name`; `out` is always written — with the
value-initialized default of `T` when no such property exists, and with
the last matching property's `get` at index `(u32)-1` = 4294967295
otherwise (`matchValues` lists the matching getter results in visit
order). -/
theorem getPropertyValue_found_and_value (reg : Registry) (t world ent : Nat)
    (T : ScalarType) (pname : String) (c : Component)
    (h : getComponent reg t = some c) :
    getPropertyValue reg t world ent T pname =
      some (!(matchValues T pname world ent c.props).isEmpty,
            lastOrDefault T.defaultVal (matchValues T pname world ent c.props))
    ∧ ((!(matchValues T pname world ent c.props).isEmpty) = true ↔
        ∃ sp : ScalarProp,
          CProp.scalar sp ∈ c.props ∧ sp.ty = T ∧ sp.name = pname) := by
  constructor
  · simp only [getPropertyValue, h, Option.map_some']
    rw [gpv_foldl_eq]
    simp
  · rw [show ((!(matchValues T pname world ent c.props).isEmpty) = true ↔
        matchValues T pname world ent c.props ≠ []) from by simp]
    exact matchValues_ne_nil_iff T pname world ent c.props

theorem getPropertyValue_found_and_value_witness :
    getPropertyValue regDemo 7 0 0 ScalarType.flt "f" =
      some (!(matchValues ScalarType.flt "f" 0 0 cmpDemo.props).isEmpty,
            lastOrDefault (ScalarType.flt).defaultVal
              (matchValues ScalarType.flt "f" 0 0 cmpDemo.props))
    ∧ ((!(matchValues ScalarType.flt "f" 0 0 cmpDemo.props).isEmpty) = true ↔
        ∃ sp : ScalarProp,
          CProp.scalar sp ∈ cmpDemo.props ∧
            sp.ty = ScalarType.flt ∧ sp.name = "f") :=
  getPropertyValue_found_and_value regDemo 7 0 0 ScalarType.flt "f" cmpDemo rfl

/-- A concrete read-only property: built with no setter. -/
def propRO : ScalarProp :=
  { name := "ro", ty := .boolT, getter := fun _ _ _ => false, setter := none }

/-- C5 counterexample: `propRO` is read-only (`isReadonly()` true, setter
null), yet `Property<T>::set` on it is not rejected and not a no-op
returning the world unchanged (`some 0` would be the unchanged world):
the unguarded `setter(...)` call goes through the null setter, modelled
as `none` (undefined behavior). -/
theorem property_set_readonly_counterexample :
    propRO.isReadonly = true
    ∧ propRO.set 0 0 0 true ≠ some 0
    ∧ propRO.set 0 0 0 true = none :=
  ⟨rfl, by simp [propRO, ScalarProp.set], rfl⟩

/-- C5 amended: `isReadonly()` is true exactly when no setter was
supplied at registration; calling `set` on such a property never reaches
a module setter (so nothing is mutated) but is neither rejected nor a
guarded no-op — it invokes the null setter, which is undefined behavior
(modelled as `none`); with a setter present, `set` is exactly the bound
setter's effect. -/
theorem property_isReadonly_set (p : ScalarProp) (world ent idx : Nat)
    (v : p.ty.carrier) :
    (p.isReadonly = true ↔ p.setter = none)
    ∧ (p.isReadonly = true → p.set world ent idx v = none)
    ∧ (p.isReadonly = false →
        ∀ s, p.setter = some s → p.set world ent idx v = some (s world ent idx v)) := by
  refine ⟨Option.isNone_iff_eq_none, fun h => ?_, fun _ s hs => ?_⟩
  · rw [ScalarProp.set, Option.isNone_iff_eq_none.mp h]
  · rw [ScalarProp.set, hs]

/-- A builder with one open component, for the C6 counterexample. -/
def builderDemo : Builder := Builder.cmp (buildModule "m") "c" "lbl"

/-- C6 counterexample: with a component currently open
(`cmps` nonempty), `event<F>("e")` still registers the event at module
scope — `module->events` gains the event and the component list is
untouched (a `ComponentBase` has no event list at all) — so event
placement does not depend on whether a component is open. -/
theorem builder_event_scope_counterexample :
    builderDemo.module.cmps.isEmpty = false
    ∧ (builderDemo.event "e").module.events = ["e"]
    ∧ (builderDemo.event "e").module.cmps = builderDemo.module.cmps :=
  ⟨rfl, rfl, rfl⟩

theorem pushFnLast_eq_dropLast_append (cs : List Component) (fname : String)
    (last0 : Component) (h : cs.getLast? = some last0) :
    pushFnLast cs fname =
      cs.dropLast ++ [{ last0 with functions := last0.functions ++ [fname] }] := by
  induction cs with
  | nil => simp at h
  | cons c rest ih =>
    cases rest with
    | nil =>
      have : c = last0 := by simpa [List.getLast?] using h
      subst this
      rfl
    | cons c2 rest2 =>
      rw [List.getLast?_cons_cons] at h
      simp only [pushFnLast, ih h, List.dropLast_cons₂, List.cons_append]

/-- C6 amended: `function<F>(name)` registers at module scope when no
component has been opened and at the most recently opened component's
scope otherwise; `event<F>(name)` always registers at module scope,
regardless of whether a component is open (components carry no events). -/
theorem builder_function_event_scopes (b : Builder) (fname ename : String) :
    ((b.event ename).module.events = b.module.events ++ [ename]
      ∧ (b.event ename).module.cmps = b.module.cmps
      ∧ (b.event ename).module.functions = b.module.functions)
    ∧ ((b.function fname).module.events = b.module.events)
    ∧ (b.module.cmps.isEmpty = true →
        (b.function fname).module.functions = b.module.functions ++ [fname]
        ∧ (b.function fname).module.cmps = b.module.cmps)
    ∧ (∀ last0, b.module.cmps.getLast? = some last0 →
        (b.function fname).module.functions = b.module.functions
        ∧ (b.function fname).module.cmps =
            b.module.cmps.dropLast ++
              [{ last0 with functions := last0.functions ++ [fname] }]) := by
  refine ⟨⟨rfl, rfl, rfl⟩, ?_, fun h => ?_, fun last0 h => ?_⟩
  · unfold Builder.function
    split <;> rfl
  · simp [Builder.function, h]
  · have hne : b.module.cmps.isEmpty = false := by
      cases hcs : b.module.cmps with
      | nil => rw [hcs] at h; simp at h
      | cons x xs => simp
    exact ⟨by simp [Builder.function, hne],
      by simp [Builder.function, hne, pushFnLast_eq_dropLast_append _ fname last0 h]⟩

/-- C7: for an enum-typed getter the builder produces an i32-backed
property (`BuiltEnumProp`'s value type is the i32 model, Int): its getter
returns the module getter's enum result cast to i32
(`static_cast<i32>`), its setter passes the supplied i32 cast back to the
enum type to the module setter (`static_cast<T>`); when the module
accessors store-and-return and the cast round-trips (as the C++ casts do
for any value of the enum's underlying type), a `set` followed by a `get`
returns the underlying integer unchanged. -/
theorem builder_prop_enum_backing (M E : Type) (mget : M → Nat → E)
    (mset : M → Nat → E → M) (c : EnumCast E) (m : M) (e idx idx2 : Nat)
    (v : Int)
    (hmod : ∀ (m0 : M) (e0 : Nat) (x : E), mget (mset m0 e0 x) e0 = x)
    (hcast : c.toI32 (c.ofI32 v) = v) :
    (builderPropEnum mget mset c).getter m e idx = c.toI32 (mget m e)
    ∧ (builderPropEnum mget mset c).setter m e idx v = mset m e (c.ofI32 v)
    ∧ (builderPropEnum mget mset c).getter
        ((builderPropEnum mget mset c).setter m e idx v) e idx2 = v := by
  refine ⟨rfl, rfl, ?_⟩
  simp [builderPropEnum, hmod, hcast]

/-- A three-valued enum for the C7 witness. -/
inductive DemoEnum where
  | optA | optB | optC
  deriving DecidableEq, Repr

/-- The casts of `DemoEnum` to and from its underlying integers. -/
def demoEnumCast : EnumCast DemoEnum :=
  { toI32 := fun x => match x with | .optA => 0 | .optB => 1 | .optC => 2,
    ofI32 := fun n => if n = 0 then .optA else if n = 1 then .optB else .optC }

/-- A module getter storing one `DemoEnum` as the whole world. -/
def demoEnumGet (m : DemoEnum) (_e : Nat) : DemoEnum := m

/-- The matching module setter. -/
def demoEnumSet (_m : DemoEnum) (_e : Nat) (x : DemoEnum) : DemoEnum := x

theorem builder_prop_enum_backing_witness :
    (builderPropEnum demoEnumGet demoEnumSet demoEnumCast).getter
        DemoEnum.optA 5 0 = demoEnumCast.toI32 (demoEnumGet DemoEnum.optA 5)
    ∧ (builderPropEnum demoEnumGet demoEnumSet demoEnumCast).setter
        DemoEnum.optA 5 0 1 = demoEnumSet DemoEnum.optA 5 (demoEnumCast.ofI32 1)
    ∧ (builderPropEnum demoEnumGet demoEnumSet demoEnumCast).getter
        ((builderPropEnum demoEnumGet demoEnumSet demoEnumCast).setter
          DemoEnum.optA 5 0 1) 5 0 = 1 :=
  builder_prop_enum_backing DemoEnum DemoEnum demoEnumGet demoEnumSet
    demoEnumCast DemoEnum.optA 5 0 0 1 (fun _ _ _ => rfl) rfl
